import Mathlib

/-!
Verification of `bufferControl.py`, a Sublime Text 3 plugin that manages open
buffers: switching between views, killing views, with most-recently-used
ordering and group scoping.

The embedding is shallow: views are records of the host attributes the plugin
reads, windows carry their groups (lists of views), the per-group active view,
the active group index, and the project folders.  The process-wide mutable
global `activeViewList` is passed explicitly as a parameter `avl`.  Python's
`sorted(views, key=..., reverse=True)` is a stable descending sort; it is
embedded as `List.insertionSort` with the non-strict descending comparison,
which is also a stable descending sort and therefore produces the same list.
-/

/-- A Sublime Text view, restricted to the attributes `bufferControl.py` reads:
`view.name()`, `view.file_name()`, `view.is_dirty()`, `view.is_scratch()`.
The `id` field stands for the host object identity by which Python compares
views (`view in activeViewList`, `views[0] == window.active_view()`). -/
structure View where
  id : Nat
  name : Option String := none
  fileName : Option String := none
  isDirty : Bool := false
  isScratch : Bool := false
deriving DecidableEq, Repr

/-- `BufferControlEventListener.on_activated`: if the view is already in the
recency list remove it, then always append it at the end. -/
def on_activated (avl : List View) (view : View) : List View :=
  (if view ∈ avl then avl.erase view else avl) ++ [view]

/-- `BufferControlEventListener.on_close`: remove the view from the recency
list if it is there (Python `list.remove` drops the first occurrence). -/
def on_close (avl : List View) (view : View) : List View :=
  if view ∈ avl then avl.erase view else avl

/-- `sort_helper` inside `sort_views_by_recent`: the position of the view in
`activeViewList`, or `-1` when absent. -/
def sort_helper (avl : List View) (view : View) : Int :=
  if view ∈ avl then (avl.indexOf view : Int) else -1

/-- `sort_views_by_recent(views)`: Python's
`sorted(views, key=sort_helper, reverse=True)`, a stable sort in descending
key order, embedded as insertion sort with the non-strict descending
comparison (also stable and descending, hence the identical list). -/
def sort_views_by_recent (avl : List View) (views : List View) : List View :=
  List.insertionSort (fun a b => sort_helper avl b ≤ sort_helper avl a) views

/-- Recency lists actually reachable at runtime: `activeViewList` starts as
`[]` and is only ever modified by the two event handlers. -/
inductive ReachableAVL : List View → Prop
  | empty : ReachableAVL []
  | activated (avl : List View) (view : View) :
      ReachableAVL avl → ReachableAVL (on_activated avl view)
  | closed (avl : List View) (view : View) :
      ReachableAVL avl → ReachableAVL (on_close avl view)

lemma on_activated_nodup {avl : List View} (view : View) (h : avl.Nodup) :
    (on_activated avl view).Nodup := by
  unfold on_activated
  have hbase : (if view ∈ avl then avl.erase view else avl).Nodup := by
    split
    · exact h.erase view
    · exact h
  have hnot : view ∉ (if view ∈ avl then avl.erase view else avl) := by
    split
    · exact h.not_mem_erase
    · assumption
  refine hbase.append (List.nodup_singleton view) ?_
  intro x hx hx1
  simp only [List.mem_singleton] at hx1
  subst hx1
  exact hnot hx

lemma on_close_nodup {avl : List View} (view : View) (h : avl.Nodup) :
    (on_close avl view).Nodup := by
  unfold on_close
  split
  · exact h.erase view
  · exact h

lemma reachableAVL_nodup {avl : List View} (h : ReachableAVL avl) : avl.Nodup := by
  induction h with
  | empty => exact List.nodup_nil
  | activated avl view _ ih => exact on_activated_nodup view ih
  | closed avl view _ ih => exact on_close_nodup view ih

/-- Filtering a list by one value of a key commutes with `orderedInsert` for
the descending comparison: the inserted element lands in front of its own key
class, and all elements it jumps over have strictly greater keys. -/
lemma filter_orderedInsert_key {α : Type} (key : α → Int) (k : Int) (a : α) :
    ∀ l : List α,
      (List.orderedInsert (fun x y => key y ≤ key x) a l).filter
          (fun v => key v == k) =
        if key a == k then a :: l.filter (fun v => key v == k)
        else l.filter (fun v => key v == k)
  | [] => by
      simp [List.orderedInsert, List.filter_cons]
  | b :: l => by
      simp only [List.orderedInsert]
      by_cases h : key b ≤ key a
      · rw [if_pos h]
        rw [List.filter_cons]
      · rw [if_neg h]
        have hlt : key a < key b := lt_of_not_le h
        rw [List.filter_cons, filter_orderedInsert_key key k a l, List.filter_cons]
        by_cases hk : (key a == k) = true
        · have hak : key a = k := by simpa using hk
          have hbk : (key b == k) = false := by
            simp only [beq_eq_false_iff_ne, ne_eq]
            omega
          simp [hk, hbk]
        · simp [hk]

/-- Stability of the embedded sort: each single-key fiber of the output is the
corresponding fiber of the input, in the same order. -/
lemma filter_insertionSort_key {α : Type} (key : α → Int) (k : Int) :
    ∀ l : List α,
      (List.insertionSort (fun x y => key y ≤ key x) l).filter
          (fun v => key v == k) = l.filter (fun v => key v == k)
  | [] => rfl
  | a :: l => by
      simp only [List.insertionSort]
      rw [filter_orderedInsert_key key k a, filter_insertionSort_key key k l,
        List.filter_cons]

lemma sort_helper_nonneg_iff (avl : List View) (v : View) :
    0 ≤ sort_helper avl v ↔ v ∈ avl := by
  unfold sort_helper
  split
  · simpa using ‹v ∈ avl›
  · constructor
    · intro h; omega
    · intro h; exact absurd h ‹¬ v ∈ avl›

lemma sort_views_by_recent_sorted (avl views : List View) :
    (sort_views_by_recent avl views).Sorted
      (fun a b => sort_helper avl b ≤ sort_helper avl a) := by
  letI : IsTotal View (fun a b => sort_helper avl b ≤ sort_helper avl a) :=
    ⟨fun a b => le_total _ _⟩
  letI : IsTrans View (fun a b => sort_helper avl b ≤ sort_helper avl a) :=
    ⟨fun a b c hab hbc => le_trans hbc hab⟩
  exact List.sorted_insertionSort _ _

/-- C1: `sort_views_by_recent` returns a permutation of its input, sorted in
descending order of `sort_helper` (the position in `activeViewList`, `-1` for
absent views); absent views come after all present views; the sort is stable,
so each key class keeps its relative order from the input. -/
theorem sort_views_by_recent_spec (avl views : List View) :
    (sort_views_by_recent avl views).Perm views
    ∧ (sort_views_by_recent avl views).Sorted
        (fun a b => sort_helper avl b ≤ sort_helper avl a)
    ∧ (∀ k : Int,
        (sort_views_by_recent avl views).filter (fun v => sort_helper avl v == k)
          = views.filter (fun v => sort_helper avl v == k))
    ∧ (∀ v : View, v ∉ avl → sort_helper avl v = -1)
    ∧ (sort_views_by_recent avl views).Pairwise (fun a b => b ∈ avl → a ∈ avl) := by
  have hsorted := sort_views_by_recent_sorted avl views
  refine ⟨List.perm_insertionSort _ _, hsorted, ?_, ?_, ?_⟩
  · intro k
    exact filter_insertionSort_key (sort_helper avl) k views
  · intro v hv
    unfold sort_helper
    rw [if_neg hv]
  · refine hsorted.imp ?_
    intro a b hab hb
    rw [← sort_helper_nonneg_iff] at hb ⊢
    omega

/-- Witness for C1 at a concrete input: a view absent from the recency list
gets key `-1`, and the result is a permutation of the input. -/
theorem sort_views_by_recent_spec_witness :
    sort_helper [⟨0, none, none, false, false⟩]
        (⟨1, none, none, false, false⟩ : View) = -1
    ∧ (sort_views_by_recent [⟨0, none, none, false, false⟩]
        [⟨1, none, none, false, false⟩, ⟨0, none, none, false, false⟩]).Perm
        [⟨1, none, none, false, false⟩, ⟨0, none, none, false, false⟩] :=
  ⟨(sort_views_by_recent_spec [⟨0, none, none, false, false⟩]
      [⟨1, none, none, false, false⟩, ⟨0, none, none, false, false⟩]).2.2.2.1
      ⟨1, none, none, false, false⟩ (by decide),
   (sort_views_by_recent_spec [⟨0, none, none, false, false⟩]
      [⟨1, none, none, false, false⟩, ⟨0, none, none, false, false⟩]).1⟩

/-- C3: starting from a duplicate-free recency list, `on_activated view`
leaves the list duplicate-free, with `view` as its last element, occurring
exactly once. -/
theorem on_activated_spec (avl : List View) (view : View) (h : avl.Nodup) :
    (on_activated avl view).Nodup
    ∧ (on_activated avl view).getLast? = some view
    ∧ (on_activated avl view).count view = 1 := by
  refine ⟨on_activated_nodup view h, ?_, ?_⟩
  · unfold on_activated
    exact List.getLast?_concat _
  · unfold on_activated
    have hnot : view ∉ (if view ∈ avl then avl.erase view else avl) := by
      split
      · exact h.not_mem_erase
      · assumption
    rw [List.count_append, List.count_eq_zero.mpr hnot]
    simp

/-- Witness for C3 at a concrete input. -/
theorem on_activated_spec_witness :
    (on_activated [⟨0, none, none, false, false⟩]
        ⟨1, none, none, false, false⟩).Nodup
    ∧ (on_activated [⟨0, none, none, false, false⟩]
        (⟨1, none, none, false, false⟩ : View)).getLast?
        = some ⟨1, none, none, false, false⟩
    ∧ (on_activated [⟨0, none, none, false, false⟩]
        ⟨1, none, none, false, false⟩).count ⟨1, none, none, false, false⟩ = 1 :=
  on_activated_spec [⟨0, none, none, false, false⟩]
    ⟨1, none, none, false, false⟩ (by decide)

/-- C4: on any reachable recency list (these are exactly the lists the
process-wide `activeViewList` can hold, and they are duplicate-free),
`on_close view` removes `view` entirely, keeps every other entry in order,
and is the identity when `view` is absent. -/
theorem on_close_spec (avl : List View) (view : View) (h : ReachableAVL avl) :
    view ∉ on_close avl view
    ∧ on_close avl view = avl.filter (fun x => x != view)
    ∧ (view ∉ avl → on_close avl view = avl) := by
  have hnd : avl.Nodup := reachableAVL_nodup h
  refine ⟨?_, ?_, ?_⟩
  · unfold on_close
    by_cases hmem : view ∈ avl
    · rw [if_pos hmem]
      exact hnd.not_mem_erase
    · rw [if_neg hmem]
      exact hmem
  · unfold on_close
    by_cases hmem : view ∈ avl
    · rw [if_pos hmem]
      exact hnd.erase_eq_filter view
    · rw [if_neg hmem, eq_comm]
      apply List.filter_eq_self.mpr
      intro x hx
      simp only [bne_iff_ne, ne_eq]
      intro hxv
      subst hxv
      exact hmem hx
  · intro hv
    unfold on_close
    rw [if_neg hv]

/-- Witness for C4 at a concrete reachable recency list. -/
theorem on_close_spec_witness :
    (⟨0, none, none, false, false⟩ : View) ∉
      on_close (on_activated [] ⟨0, none, none, false, false⟩)
        ⟨0, none, none, false, false⟩ :=
  (on_close_spec (on_activated [] ⟨0, none, none, false, false⟩)
    ⟨0, none, none, false, false⟩
    (ReachableAVL.activated [] ⟨0, none, none, false, false⟩
      ReachableAVL.empty)).1

/-- A Sublime Text window, restricted to the API surface `bufferControl.py`
uses: the views of each group in tab order, the active view of each group
(`window.active_view()` returns the active view of the active group), the
active group index, and the project folders. -/
structure Window where
  groups : List (List View)
  activeInGroup : List (Option View)
  activeGroupIdx : Nat
  folders : List String
deriving DecidableEq, Repr

/-- Host `window.views_in_group(group)`. -/
def Window.views_in_group (w : Window) (group : Nat) : List View :=
  w.groups.getD group []

/-- Host `window.views()`: all views of the window, group by group. -/
def Window.views (w : Window) : List View :=
  w.groups.flatten

/-- Host `window.num_groups()`. -/
def Window.num_groups (w : Window) : Nat := w.groups.length

/-- Host `window.active_group()`. -/
def Window.active_group (w : Window) : Nat := w.activeGroupIdx

/-- Host `window.active_view()`: the active view of the active group, `none`
when the group is empty. -/
def Window.active_view (w : Window) : Option View :=
  w.activeInGroup.getD w.activeGroupIdx none

/-- Host `window.focus_group(group)`: switches the active group; the active
view within each group is untouched. -/
def Window.focus_group (w : Window) (group : Nat) : Window :=
  { w with activeGroupIdx := group }

/-- Index of the first group containing the view, if any. -/
def findGroupAux (view : View) : List (List View) → Nat → Option Nat
  | [], _ => none
  | g :: gs, i => if view ∈ g then some i else findGroupAux view gs (i + 1)

def Window.find_group (w : Window) (view : View) : Option Nat :=
  findGroupAux view w.groups 0

/-- Host `window.focus_view(view)`: focuses the view's group and makes the
view active within it; a view not in the window is a no-op. -/
def Window.focus_view (w : Window) (view : View) : Window :=
  match w.find_group view with
  | some g =>
      { w with activeGroupIdx := g,
               activeInGroup := w.activeInGroup.set g (some view) }
  | none => w

/-- Host `window.run_command("close_file")`: closes the active view of the
active group.  Which remaining tab the host then activates is its own
business; this model picks the tab now sitting at the closed view's index
(clamped), which matches Sublime's neighbouring-tab behaviour. -/
def Window.close_file (w : Window) : Window :=
  match w.active_view with
  | none => w
  | some av =>
      let g := w.activeGroupIdx
      let l := w.views_in_group g
      let i := l.indexOf av
      let rest := l.erase av
      let newActive : Option View :=
        match rest.head? with
        | none => none
        | some h => some (rest.getD (min i (rest.length - 1)) h)
      { w with groups := w.groups.set g rest,
               activeInGroup := w.activeInGroup.set g newActive }

/-- The "move the current view to the end" step of `BufferSelector.__init__`
(the `not currentFirst` case): when the first candidate is the window's
active view it is removed from the front and appended at the back. -/
def current_last (w : Window) : List View → List View
  | [] => []
  | v0 :: rest =>
      if w.active_view = some v0 then ((v0 :: rest).erase v0) ++ [v0]
      else v0 :: rest

/-- The candidate-view list computed by `BufferSelector.__init__`: the views
of the active group or of the whole window, optionally sorted by recency,
with the current view moved to the end unless `currentFirst`. -/
def selector_views (avl : List View) (w : Window)
    (activeGroup sortByRecent currentFirst : Bool) : List View :=
  let views0 := if activeGroup then w.views_in_group w.active_group else w.views
  let views1 := if sortByRecent then sort_views_by_recent avl views0 else views0
  if currentFirst then views1 else current_last w views1

lemma current_last_perm (w : Window) :
    ∀ l : List View, (current_last w l).Perm l
  | [] => List.Perm.refl _
  | v0 :: rest => by
      simp only [current_last]
      by_cases ha : w.active_view = some v0
      · rw [if_pos ha, List.erase_cons_head]
        exact List.perm_append_singleton v0 rest
      · rw [if_neg ha]

lemma selector_views_perm (avl : List View) (w : Window) (ag sbr cf : Bool) :
    (selector_views avl w ag sbr cf).Perm
      (if ag then w.views_in_group w.active_group else w.views) := by
  unfold selector_views
  have h1 : (if sbr then
        sort_views_by_recent avl
          (if ag then w.views_in_group w.active_group else w.views)
      else if ag then w.views_in_group w.active_group else w.views).Perm
      (if ag then w.views_in_group w.active_group else w.views) := by
    by_cases hs : sbr = true
    · rw [if_pos hs]
      exact List.perm_insertionSort _ _
    · rw [if_neg hs]
  by_cases hc : cf = true
  · rw [if_pos hc]
    exact h1
  · rw [if_neg hc]
    exact (current_last_perm w _).trans h1

/-- C5: with `active_group` true the candidate views of the selector (used by
both `switch_buffer` and `kill_buffer`) are exactly the views of the window's
active group, and with `active_group` false exactly all views of the window
(as lists they are permutations, hence equal as sets). -/
theorem selector_views_scope (avl : List View) (w : Window) (sbr cf : Bool) :
    (selector_views avl w true sbr cf).Perm (w.views_in_group w.active_group)
    ∧ (selector_views avl w false sbr cf).Perm w.views := by
  constructor
  · simpa using selector_views_perm avl w true sbr cf
  · simpa using selector_views_perm avl w false sbr cf

/-- C2 does not hold for `switch_buffer`: with the recency list `[va, vb]`
(so `vb` is the most recently activated view) and a one-group window whose
views are `[va, vb]` with `vb` active, the switch selector shows `va` first:
the sort puts `vb` first, but `currentFirst=False` moves it to the end. -/
theorem switch_buffer_not_mru_first :
    (selector_views
        [⟨0, none, none, false, false⟩, ⟨1, none, none, false, false⟩]
        ⟨[[⟨0, none, none, false, false⟩, ⟨1, none, none, false, false⟩]],
          [some ⟨1, none, none, false, false⟩], 0, []⟩
        true true false).head? = some ⟨0, none, none, false, false⟩
    ∧ (⟨1, none, none, false, false⟩ : View) ∈ selector_views
        [⟨0, none, none, false, false⟩, ⟨1, none, none, false, false⟩]
        ⟨[[⟨0, none, none, false, false⟩, ⟨1, none, none, false, false⟩]],
          [some ⟨1, none, none, false, false⟩], 0, []⟩
        true true false
    ∧ sort_helper
        [⟨0, none, none, false, false⟩, ⟨1, none, none, false, false⟩]
        ⟨0, none, none, false, false⟩
      < sort_helper
        [⟨0, none, none, false, false⟩, ⟨1, none, none, false, false⟩]
        ⟨1, none, none, false, false⟩ := by
  decide

/-- C2 amended: with `sort_by_recent` true, `kill_buffer`'s candidate list
(`currentFirst=True`) is most-recently-used first: its first element
maximises the recency key among the candidates.  `switch_buffer`'s list
(`currentFirst=False`) is the same list except that when its first element
is the window's active view, that element is moved to the end. -/
theorem selector_views_mru (avl : List View) (w : Window) (ag : Bool) :
    (∀ v0 u, (selector_views avl w ag true true).head? = some v0 →
        u ∈ selector_views avl w ag true true →
        sort_helper avl u ≤ sort_helper avl v0)
    ∧ selector_views avl w ag true false
        = current_last w (selector_views avl w ag true true) := by
  constructor
  · intro v0 u hhead hu
    have hs : (selector_views avl w ag true true).Sorted
        (fun a b => sort_helper avl b ≤ sort_helper avl a) := by
      have he : selector_views avl w ag true true
          = sort_views_by_recent avl
              (if ag then w.views_in_group w.active_group else w.views) := rfl
      rw [he]
      exact sort_views_by_recent_sorted avl _
    cases hl : selector_views avl w ag true true with
    | nil => rw [hl] at hhead; simp at hhead
    | cons a t =>
        rw [hl] at hhead hu hs
        simp only [List.head?_cons, Option.some.injEq] at hhead
        subst hhead
        rcases List.mem_cons.mp hu with h | h
        · subst h; exact le_refl _
        · exact (List.sorted_cons.mp hs).1 u h
  · rfl

/-- Witness for the amended C2 at a concrete input: in the kill list for the
window above, the head `vb` has a key at least that of the other candidate. -/
theorem selector_views_mru_witness :
    sort_helper [⟨0, none, none, false, false⟩, ⟨1, none, none, false, false⟩]
        ⟨0, none, none, false, false⟩
      ≤ sort_helper [⟨0, none, none, false, false⟩, ⟨1, none, none, false, false⟩]
        ⟨1, none, none, false, false⟩ :=
  (selector_views_mru
      [⟨0, none, none, false, false⟩, ⟨1, none, none, false, false⟩]
      ⟨[[⟨0, none, none, false, false⟩, ⟨1, none, none, false, false⟩]],
        [some ⟨1, none, none, false, false⟩], 0, []⟩
      true).1 ⟨1, none, none, false, false⟩ ⟨0, none, none, false, false⟩
    (by decide) (by decide)

/-- POSIX `os.path.basename`: everything after the last `/`. -/
def basename (s : String) : String :=
  (s.splitOn "/").getLastD ""

/-- `os.path.commonprefix` on two strings works character by character:
the longest common character sequence at the front. -/
def commonPrefixChars : List Char → List Char → List Char
  | [], _ => []
  | _ :: _, [] => []
  | a :: as, b :: bs => if a = b then a :: commonPrefixChars as bs else []

def commonprefix (a b : String) : String :=
  String.mk (commonPrefixChars a.data b.data)

/-- The component split `posixpath.relpath` applies to its (absolute,
normalised) arguments: split on `/` and drop empty components. -/
def pathComponents (s : String) : List String :=
  (s.splitOn "/").filter (fun c => c ≠ "")

def commonLen : List String → List String → Nat
  | a :: as, b :: bs => if a = b then commonLen as bs + 1 else 0
  | _, _ => 0

/-- POSIX `os.path.relpath(path, start)` for absolute, normalised inputs
(Sublime hands the plugin absolute file names and folders, so
`abspath`/`normpath` inside `relpath` are the identity): climb out of the
non-shared `start` components with `..`, then descend the rest of `path`. -/
def relpath (path start : String) : String :=
  let pl := pathComponents path
  let sl := pathComponents start
  let i := commonLen sl pl
  let rel := List.replicate (sl.length - i) ".." ++ pl.drop i
  if rel = [] then "." else String.intercalate "/" rel

/-- POSIX `os.path.join` on two components. -/
def joinPath (a b : String) : String :=
  if b.startsWith "/" then b
  else if a = "" ∨ a.endsWith "/" then a ++ b
  else a ++ "/" ++ b

/-- `BufferSelector.__get_display_name`. -/
def get_display_name (view : View) : String :=
  let modStar := if view.isDirty then "*" else ""
  let dispName :=
    match view.name with
    | some n =>
        if n ≠ "" then n
        else
          match view.fileName with
          | some f => basename f
          | none => "untitled"
    | none =>
        match view.fileName with
        | some f => basename f
        | none => "untitled"
  dispName ++ modStar

/-- The display name as C6 words it: the view's name when set and non-empty,
else the basename of the file name when a file name is present, else
`untitled` (the trailing `*` for dirty views is stated separately). -/
def display_base_from_spec (view : View) : String :=
  if view.name ≠ none ∧ view.name.getD "" ≠ "" then view.name.getD ""
  else if view.fileName ≠ none then basename (view.fileName.getD "")
  else "untitled"

/-- `BufferSelector.__get_path`: the for-loop over the window folders. -/
def get_path_loop (fn : String) (nfolders : Nat) : List String → String
  | [] => fn
  | folder :: rest =>
      if commonprefix folder fn = folder then
        if 1 < nfolders then joinPath (basename folder) (relpath fn folder)
        else relpath fn folder
      else get_path_loop fn nfolders rest

/-- `BufferSelector.__get_path`.  Python's `if not view.file_name()` is true
both for `None` and for the empty string, so both map to `<unsaved>`. -/
def get_path (w : Window) (view : View) : String :=
  if view.isScratch then ""
  else
    match view.fileName with
    | none => "<unsaved>"
    | some fn =>
        if fn = "" then "<unsaved>"
        else get_path_loop fn w.folders.length w.folders

/-- The quick-panel path as C7 words it: empty for scratch views,
`<unsaved>` for views with no file name (Python-falsy: `None` or empty),
else the file name relative to the first window folder that is a string
prefix of it — prefixed with that folder's basename exactly when the window
has more than one folder — and the full file name when no folder matches. -/
def get_path_from_spec (w : Window) (view : View) : String :=
  if view.isScratch then ""
  else
    match view.fileName with
    | none => "<unsaved>"
    | some fn =>
        if fn = "" then "<unsaved>"
        else
          match w.folders.find? (fun folder => folder.data.isPrefixOf fn.data) with
          | some folder =>
              if 1 < w.folders.length then
                joinPath (basename folder) (relpath fn folder)
              else relpath fn folder
          | none => fn

lemma commonPrefixChars_eq_self_iff :
    ∀ as bs : List Char, commonPrefixChars as bs = as ↔ as.isPrefixOf bs = true
  | [], bs => by simp [commonPrefixChars]
  | a :: as, [] => by simp [commonPrefixChars]
  | a :: as, b :: bs => by
      simp only [commonPrefixChars, List.isPrefixOf]
      by_cases hab : a = b
      · rw [if_pos hab]
        simp [hab, commonPrefixChars_eq_self_iff as bs]
      · rw [if_neg hab]
        simp [beq_iff_eq, hab]

lemma commonprefix_eq_self_iff (folder fn : String) :
    commonprefix folder fn = folder ↔ folder.data.isPrefixOf fn.data = true := by
  unfold commonprefix
  constructor
  · intro h
    exact (commonPrefixChars_eq_self_iff folder.data fn.data).mp
      (congrArg String.data h)
  · intro h
    rw [(commonPrefixChars_eq_self_iff folder.data fn.data).mpr h]

lemma get_path_loop_eq_find (fn : String) (n : Nat) :
    ∀ folders : List String,
      get_path_loop fn n folders
        = match folders.find? (fun folder => folder.data.isPrefixOf fn.data) with
          | some folder =>
              if 1 < n then joinPath (basename folder) (relpath fn folder)
              else relpath fn folder
          | none => fn
  | [] => by simp [get_path_loop]
  | folder :: rest => by
      simp only [get_path_loop]
      by_cases hp : folder.data.isPrefixOf fn.data = true
      · rw [if_pos ((commonprefix_eq_self_iff folder fn).mpr hp)]
        simp [List.find?, hp]
      · have hp' : folder.data.isPrefixOf fn.data = false :=
          Bool.eq_false_iff.mpr hp
        rw [if_neg (fun hc => hp ((commonprefix_eq_self_iff folder fn).mp hc)),
          get_path_loop_eq_find fn n rest]
        simp [List.find?, hp']

/-- C6: the quick-panel display name is the name/basename/untitled fallback
of the claim, with `*` appended exactly when the view is dirty. -/
theorem get_display_name_spec (view : View) :
    get_display_name view
      = display_base_from_spec view ++ (if view.isDirty then "*" else "") := by
  unfold get_display_name display_base_from_spec
  cases hn : view.name with
  | none => cases hf : view.fileName <;> simp [hf]
  | some n =>
      by_cases hne : n = ""
      · subst hne
        cases hf : view.fileName <;> simp [hf]
      · simp [hne]

/-- C7: the quick-panel path equals its description in the claim. -/
theorem get_path_spec (w : Window) (view : View) :
    get_path w view = get_path_from_spec w view := by
  unfold get_path get_path_from_spec
  by_cases hs : view.isScratch = true
  · rw [if_pos hs, if_pos hs]
  · rw [if_neg hs, if_neg hs]
    cases hf : view.fileName with
    | none => rfl
    | some fn =>
        by_cases hfn : fn = "" <;>
          simp [hfn, get_path_loop_eq_find fn w.folders.length w.folders]

/-- The index Python uses for `l[i]`: negative indices count from the end. -/
def pyIndex (n : Nat) (i : Int) : Int :=
  if i < 0 then (n : Int) + i else i

/-- Python `l[i]`: `some` of the element for an in-range index, `none` when
the access would raise `IndexError`. -/
def pyGet {α : Type} (l : List α) (i : Int) : Option α :=
  if _h : 0 ≤ pyIndex l.length i ∧ pyIndex l.length i < l.length then
    l[(pyIndex l.length i).toNat]?
  else none

/-- The state a `BufferSelector` carries when `select` runs: the window, the
candidate views computed in `__init__`, and whether a callback was given. -/
structure BufferSelector where
  window : Window
  views : List View
  hasCallback : Bool
deriving DecidableEq, Repr

/-- `BufferSelector.select(index)`: when `index != -1` and a callback was
given, the callback is invoked on `self.views[index]` (Python indexing; an
out-of-range access raises `IndexError`, modelled as `.error ()`).  The
`.ok` payload records which view, if any, the callback receives; `.ok none`
means no callback ran, so no focus or close operation happens and the window
and recency list are untouched. -/
def BufferSelector.select (s : BufferSelector) (index : Int) :
    Except Unit (Option View) :=
  if index ≠ -1 ∧ s.hasCallback then
    match pyGet s.views index with
    | some v => .ok (some v)
    | none => .error ()
  else .ok none

/-- The `[display_name, path]` rows handed to `show_quick_panel`. -/
def panel_items (s : BufferSelector) : List (String × String) :=
  s.views.map (fun view => (get_display_name view, get_path s.window view))

/-- What `choose_view` does: either auto-select without showing the panel,
or show the quick panel with the given rows. -/
inductive ChooseOutcome where
  | auto (result : Except Unit (Option View))
  | panel (items : List (String × String))
deriving Repr

/-- `BufferSelector.choose_view(index)`: auto-select when an index was given
and `abs(index) < len(self.views)`, otherwise prompt with the quick panel. -/
def BufferSelector.choose_view (s : BufferSelector) (index : Option Int) :
    ChooseOutcome :=
  match index with
  | some i =>
      if i.natAbs < s.views.length then .auto (s.select i)
      else .panel (panel_items s)
  | none => .panel (panel_items s)

lemma pyGet_isSome {α : Type} (l : List α) (i : Int) (h : i.natAbs < l.length) :
    ∃ v, pyGet l i = some v := by
  unfold pyGet
  have h0 : 0 ≤ pyIndex l.length i ∧ pyIndex l.length i < l.length := by
    unfold pyIndex
    split <;> omega
  rw [dif_pos h0]
  have ht : (pyIndex l.length i).toNat < l.length := by omega
  exact ⟨l[(pyIndex l.length i).toNat], List.getElem?_eq_getElem ht⟩

/-- C9 fails as stated: with two candidate views, a callback, and
`auto_index = -1`, the guard `abs(-1) < 2` passes so the quick panel is
skipped, but `select(-1)` hits its `index != -1` test and selects nothing. -/
theorem choose_view_auto_minus_one :
    BufferSelector.choose_view
        ⟨⟨[], [], 0, []⟩,
         [⟨0, none, none, false, false⟩, ⟨1, none, none, false, false⟩], true⟩
        (some (-1))
      = ChooseOutcome.auto (Except.ok none)
    ∧ (-1 : Int).natAbs < 2 :=
  ⟨rfl, by decide⟩

/-- C9 amended: the quick panel is skipped exactly when `abs(auto_index)` is
below the number of candidates; in that case, when `auto_index` is not `-1`
and a callback is set, the callback receives the view at Python index
`auto_index` (negative indices count from the end) and the indexing never
goes out of range; with `auto_index = -1` the panel is skipped but nothing is
selected; when the guard fails the quick panel is shown. -/
theorem choose_view_spec (s : BufferSelector) (i : Int) :
    (i.natAbs < s.views.length →
      s.choose_view (some i) = ChooseOutcome.auto (s.select i)
      ∧ ((i = -1 ∨ s.hasCallback = false) → s.select i = Except.ok none)
      ∧ (i ≠ -1 → s.hasCallback = true →
          ∃ v, pyGet s.views i = some v ∧ s.select i = Except.ok (some v)))
    ∧ (s.views.length ≤ i.natAbs →
        s.choose_view (some i) = ChooseOutcome.panel (panel_items s)) := by
  constructor
  · intro h
    refine ⟨?_, ?_, ?_⟩
    · simp only [BufferSelector.choose_view]
      rw [if_pos h]
    · intro hc
      unfold BufferSelector.select
      rcases hc with hc | hc
      · rw [if_neg (fun hand => hand.1 hc)]
      · rw [if_neg (fun hand => by rw [hc] at hand; exact Bool.false_ne_true hand.2)]
    · intro hi hcb
      obtain ⟨v, hv⟩ := pyGet_isSome s.views i h
      refine ⟨v, hv, ?_⟩
      unfold BufferSelector.select
      rw [if_pos ⟨hi, hcb⟩, hv]
  · intro h
    simp only [BufferSelector.choose_view]
    rw [if_neg (not_lt.mpr h)]

/-- Witness for the amended C9 at concrete inputs: with one candidate view
and a callback, `auto_index = 0` skips the panel and selects that view, and
`auto_index = 5` falls back to the quick panel. -/
theorem choose_view_spec_witness :
    (∃ v, pyGet [(⟨0, none, none, false, false⟩ : View)] (0 : Int) = some v
      ∧ BufferSelector.select ⟨⟨[], [], 0, []⟩,
          [⟨0, none, none, false, false⟩], true⟩ 0 = Except.ok (some v))
    ∧ BufferSelector.choose_view
        ⟨⟨[], [], 0, []⟩, [⟨0, none, none, false, false⟩], true⟩ (some 5)
      = ChooseOutcome.panel (panel_items
          ⟨⟨[], [], 0, []⟩, [⟨0, none, none, false, false⟩], true⟩) :=
  ⟨((choose_view_spec ⟨⟨[], [], 0, []⟩,
      [⟨0, none, none, false, false⟩], true⟩ 0).1 (by decide)).2.2
      (by decide) rfl,
   (choose_view_spec ⟨⟨[], [], 0, []⟩,
      [⟨0, none, none, false, false⟩], true⟩ 5).2 (by decide)⟩

/-- C10: `select` with index `-1` (the quick panel's cancellation value) or
with no callback invokes no callback — the selector acts on no view, so no
focus or close operation runs and the window and recency list are unchanged;
and for the indices the host can pass (`-1` or a valid row index), the
callback is invoked exactly when the index is not `-1` and a callback was
provided. -/
theorem select_spec (s : BufferSelector) (i : Int) :
    ((i = -1 ∨ s.hasCallback = false) → s.select i = Except.ok none)
    ∧ (-1 ≤ i → i < (s.views.length : Int) →
        ((∃ v, s.select i = Except.ok (some v))
          ↔ (i ≠ -1 ∧ s.hasCallback = true))) := by
  constructor
  · intro hc
    unfold BufferSelector.select
    rcases hc with hc | hc
    · rw [if_neg (fun hand => hand.1 hc)]
    · rw [if_neg (fun hand => by rw [hc] at hand; exact Bool.false_ne_true hand.2)]
  · intro hge hlt
    constructor
    · rintro ⟨v, hv⟩
      unfold BufferSelector.select at hv
      by_cases hcond : i ≠ -1 ∧ s.hasCallback = true
      · exact hcond
      · rw [if_neg hcond] at hv
        exact absurd (Except.ok.inj hv) (by simp)
    · rintro ⟨hi, hcb⟩
      have habs : i.natAbs < s.views.length := by omega
      obtain ⟨v, hv⟩ := pyGet_isSome s.views i habs
      refine ⟨v, ?_⟩
      unfold BufferSelector.select
      rw [if_pos ⟨hi, hcb⟩, hv]

/-- Witness for C10 at concrete inputs: cancellation returns nothing, and a
valid index with a callback selects a view. -/
theorem select_spec_witness :
    BufferSelector.select
        ⟨⟨[], [], 0, []⟩, [⟨0, none, none, false, false⟩], true⟩ (-1)
      = Except.ok none
    ∧ (∃ v, BufferSelector.select
        ⟨⟨[], [], 0, []⟩, [⟨0, none, none, false, false⟩], true⟩ 0
      = Except.ok (some v)) :=
  ⟨(select_spec ⟨⟨[], [], 0, []⟩,
      [⟨0, none, none, false, false⟩], true⟩ (-1)).1 (Or.inl rfl),
   ((select_spec ⟨⟨[], [], 0, []⟩,
      [⟨0, none, none, false, false⟩], true⟩ 0).2 (by decide)
      (by decide)).mpr ⟨by decide, rfl⟩⟩

/-- The host operations `KillBufferCommand.action` issues, in call order. -/
inductive HostOp where
  | focusGroup (group : Nat)
  | focusView (view : View)
  | closeFile
deriving DecidableEq, Repr

/-- The `for group in range(num_groups)` loop of `KillBufferCommand.action`:
focus the first group containing the view (no-op when the view is in no
group). -/
def kill_stage1 (w : Window) (view : View) : Window × List HostOp :=
  match w.find_group view with
  | some g => (w.focus_group g, [HostOp.focusGroup g])
  | none => (w, [])

/-- The `recentOnKill` block of `KillBufferCommand.action`: when the view to
kill is the active view, focus the most recently used other view of its
group, if any.  (Python's `viewsInGroup.remove(view)` is `List.erase`; it
cannot raise here because the active view belongs to its group.) -/
def kill_stage2 (avl : List View) (recentOnKill : Bool) (w1 : Window)
    (view : View) : Window × List HostOp :=
  if recentOnKill ∧ w1.active_view = some view then
    match ((sort_views_by_recent avl
        (w1.views_in_group w1.active_group)).erase view).head? with
    | some v0 => (w1.focus_view v0, [HostOp.focusView v0])
    | none => (w1, [])
  else (w1, [])

/-- The value `startView` holds in `KillBufferCommand.action` when the close
is about to happen: the active view after the group switch and the
`recentOnKill` refocus. -/
def kill_start_view (avl : List View) (recentOnKill : Bool) (w : Window)
    (view : View) : Option View :=
  (kill_stage2 avl recentOnKill (kill_stage1 w view).1 view).1.active_view

/-- The `if startView != view: focus_view(startView)` step after the close
(Python's `focus_view(None)` when `startView` is `None` is a host no-op). -/
def kill_stage5 (w4 : Window) (startView : Option View) (view : View) :
    Window × List HostOp :=
  match startView with
  | some sv =>
      if sv ≠ view then (w4.focus_view sv, [HostOp.focusView sv])
      else (w4, [])
  | none => (w4, [])

/-- `KillBufferCommand.action(view)`: focus the view's group, optionally
refocus the most recent other view, remember `startView`, focus and close
the doomed view, return focus to `startView` when it is not the closed view,
and finally restore the starting group.  Returns the final window plus the
trace of host calls. -/
def kill_buffer_action (avl : List View) (recentOnKill : Bool) (w : Window)
    (view : View) : Window × List HostOp :=
  let startGroup := w.active_group
  let s1 := kill_stage1 w view
  let s2 := kill_stage2 avl recentOnKill s1.1 view
  let startView := s2.1.active_view
  let w4 := (s2.1.focus_view view).close_file
  let s5 := kill_stage5 w4 startView view
  (s5.1.focus_group startGroup,
   s1.2 ++ s2.2 ++ [HostOp.focusView view, HostOp.closeFile] ++ s5.2
     ++ [HostOp.focusGroup startGroup])

/-- Host invariant: the recorded active view of each group is one of the
group's views, and only empty groups lack one; the bookkeeping lists line
up. -/
def Window.activeOk (w : Window) (g : Nat) : Bool :=
  match w.activeInGroup.getD g none with
  | some v => decide (v ∈ w.views_in_group g)
  | none => decide (w.views_in_group g = [])

def Window.ActiveConsistent (w : Window) : Prop :=
  w.activeInGroup.length = w.groups.length
  ∧ ∀ g, g < w.groups.length → w.activeOk g = true

/-- Host invariant: a view lives in at most one group of a window. -/
def Window.DisjointGroups (w : Window) : Prop :=
  ∀ i, i < w.groups.length → ∀ j, j < w.groups.length → i ≠ j →
    ∀ x ∈ w.views_in_group i, x ∉ w.views_in_group j

lemma getD_set_self {α : Type} (l : List α) (i : Nat) (x d : α)
    (h : i < l.length) : (l.set i x).getD i d = x := by
  simp [List.getD_eq_getElem?_getD, List.getElem?_set_self h]

lemma getD_set_ne {α : Type} (l : List α) {i j : Nat} (x d : α)
    (h : i ≠ j) : (l.set i x).getD j d = l.getD j d := by
  simp [List.getD_eq_getElem?_getD, List.getElem?_set_ne h]

lemma head?_mem {α : Type} {l : List α} {a : α} (h : l.head? = some a) :
    a ∈ l := by
  cases l with
  | nil => simp at h
  | cons b t =>
      simp only [List.head?_cons, Option.some.injEq] at h
      subst h
      exact List.mem_cons_self _ _

lemma findGroupAux_eq_some {view : View} :
    ∀ (gs : List (List View)) (i g : Nat), g < gs.length →
      view ∈ gs.getD g [] → (∀ g2, g2 < g → view ∉ gs.getD g2 []) →
      findGroupAux view gs i = some (i + g)
  | [], _, g, hg, _, _ => by simp at hg
  | hd :: tl, i, 0, hg, hv, _ => by
      simp only [List.getD_cons_zero] at hv
      simp [findGroupAux, hv]
  | hd :: tl, i, g + 1, hg, hv, hfirst => by
      have hhd : view ∉ hd := by
        have := hfirst 0 (Nat.succ_pos g)
        simpa using this
      simp only [List.getD_cons_succ] at hv
      have ih := findGroupAux_eq_some tl (i + 1) g
        (by simpa using Nat.lt_of_succ_lt_succ hg) hv
        (fun g2 hg2 => by
          have := hfirst (g2 + 1) (Nat.succ_lt_succ hg2)
          simpa using this)
      simp only [findGroupAux, hhd, if_false]
      rw [ih]
      exact congrArg some (by omega)

lemma find_group_eq {w : Window} {view : View} {g : Nat}
    (hg : g < w.groups.length) (hv : view ∈ w.views_in_group g)
    (hfirst : ∀ g2, g2 < g → view ∉ w.views_in_group g2) :
    w.find_group view = some g := by
  unfold Window.find_group
  have := findGroupAux_eq_some w.groups 0 g hg hv hfirst
  simpa using this

lemma find_group_of_disjoint {w : Window} {view : View} {g : Nat}
    (hd : w.DisjointGroups) (hg : g < w.groups.length)
    (hv : view ∈ w.views_in_group g) :
    w.find_group view = some g :=
  find_group_eq hg hv
    (fun g2 hg2 => hd g hg g2 (hg2.trans hg) (by omega) view hv)

lemma focus_view_eq_of_find {w : Window} {v : View} {g : Nat}
    (h : w.find_group v = some g) :
    w.focus_view v
      = { w with activeGroupIdx := g,
                 activeInGroup := w.activeInGroup.set g (some v) } := by
  unfold Window.focus_view
  rw [h]

lemma close_file_eq {w : Window} {av : View} (h : w.active_view = some av) :
    w.close_file
      = { w with
          groups := w.groups.set w.activeGroupIdx
            ((w.views_in_group w.activeGroupIdx).erase av),
          activeInGroup := w.activeInGroup.set w.activeGroupIdx
            (match ((w.views_in_group w.activeGroupIdx).erase av).head? with
             | none => none
             | some hsome => some (((w.views_in_group w.activeGroupIdx).erase av).getD
                 (min ((w.views_in_group w.activeGroupIdx).indexOf av)
                   (((w.views_in_group w.activeGroupIdx).erase av).length - 1)) hsome)) } := by
  unfold Window.close_file
  rw [h]

lemma activeOk_mem {w : Window} {g : Nat} {v : View}
    (hac : w.ActiveConsistent) (hg : g < w.groups.length)
    (hv : w.activeInGroup.getD g none = some v) :
    v ∈ w.views_in_group g := by
  have h := hac.2 g hg
  unfold Window.activeOk at h
  rw [hv] at h
  simpa using h

lemma active_view_focus_view_of_find {w : Window} {v : View} {g : Nat}
    (h : w.find_group v = some g) (hlen : g < w.activeInGroup.length) :
    (w.focus_view v).active_view = some v := by
  rw [focus_view_eq_of_find h]
  unfold Window.active_view
  exact getD_set_self w.activeInGroup g (some v) none hlen

lemma kill_stage2_props (avl : List View) (rk : Bool) (w : Window)
    (view : View) (g : Nat)
    (hac : w.ActiveConsistent) (hd : w.DisjointGroups)
    (hg : g < w.groups.length) :
    (kill_stage2 avl rk (w.focus_group g) view).1.groups = w.groups
    ∧ (kill_stage2 avl rk (w.focus_group g) view).1.activeGroupIdx = g
    ∧ (kill_stage2 avl rk (w.focus_group g) view).1.activeInGroup.length
        = w.activeInGroup.length
    ∧ (∀ x, (kill_stage2 avl rk (w.focus_group g) view).1.active_view = some x →
        x ∈ w.views_in_group g) := by
  have hbase : ∀ x, (w.focus_group g).active_view = some x →
      x ∈ w.views_in_group g := fun x hx => activeOk_mem hac hg hx
  unfold kill_stage2
  by_cases hcond : rk = true ∧ (w.focus_group g).active_view = some view
  · rw [if_pos hcond]
    cases hh : ((sort_views_by_recent avl
        ((w.focus_group g).views_in_group (w.focus_group g).active_group)).erase
          view).head? with
    | none => exact ⟨rfl, rfl, rfl, hbase⟩
    | some v0 =>
        have hv0 : v0 ∈ w.views_in_group g := by
          have h2 := List.mem_of_mem_erase (head?_mem hh)
          have h3 : v0 ∈ (w.focus_group g).views_in_group
              (w.focus_group g).active_group := by
            simpa [sort_views_by_recent] using h2
          exact h3
        have hfg2 : (w.focus_group g).find_group v0 = some g := by
          have hfv0 : w.find_group v0 = some g :=
            find_group_of_disjoint hd hg hv0
          exact hfv0
        refine ⟨?_, ?_, ?_, ?_⟩
        · show ((w.focus_group g).focus_view v0).groups = w.groups
          rw [focus_view_eq_of_find hfg2]
          rfl
        · show ((w.focus_group g).focus_view v0).activeGroupIdx = g
          rw [focus_view_eq_of_find hfg2]
        · show ((w.focus_group g).focus_view v0).activeInGroup.length
              = w.activeInGroup.length
          rw [focus_view_eq_of_find hfg2]
          simp only [List.length_set]
          rfl
        · intro x hx
          have hx2 : ((w.focus_group g).focus_view v0).active_view = some x := hx
          have hlen : g < (w.focus_group g).activeInGroup.length := by
            show g < w.activeInGroup.length
            rw [hac.1]
            exact hg
          have hav := active_view_focus_view_of_find hfg2 hlen
          rw [hav] at hx2
          exact Option.some.inj hx2 ▸ hv0
  · rw [if_neg hcond]
    exact ⟨rfl, rfl, rfl, hbase⟩

/-- C8: after `KillBufferCommand.action(view)` runs on a well-formed window
(the per-group active views are consistent and groups are pairwise
disjoint; `view` sits in group `g`), the window's active group is exactly
the group that was active before the action; and whenever `startView` — the
view that ends up active in the killed view's group after the close — is not
the killed view itself, the very last host calls are `focus_view startView`
followed by the group restore, and `startView` is indeed the active view of
group `g` in the final window. -/
theorem kill_buffer_action_spec (avl : List View) (rk : Bool) (w : Window)
    (view : View) (g : Nat)
    (hac : w.ActiveConsistent) (hd : w.DisjointGroups)
    (hg : g < w.groups.length) (hv : view ∈ w.views_in_group g) :
    (kill_buffer_action avl rk w view).1.activeGroupIdx = w.activeGroupIdx
    ∧ (∀ u, kill_start_view avl rk w view = some u → u ≠ view →
        (kill_buffer_action avl rk w view).1.activeInGroup.getD g none = some u
        ∧ ∃ pre, (kill_buffer_action avl rk w view).2
            = pre ++ [HostOp.focusView u, HostOp.focusGroup w.activeGroupIdx]) := by
  constructor
  · rfl
  · intro u hsv hne
    have hfgw : w.find_group view = some g := find_group_of_disjoint hd hg hv
    have h1 : kill_stage1 w view = (w.focus_group g, [HostOp.focusGroup g]) := by
      unfold kill_stage1
      rw [hfgw]
    set W1 := (kill_stage1 w view).1 with hW1
    have hW1eq : W1 = w.focus_group g := by rw [hW1, h1]
    set W2 := (kill_stage2 avl rk W1 view).1 with hW2
    have hw2' := kill_stage2_props avl rk w view g hac hd hg
    have hw2g : W2.groups = w.groups := by rw [hW2, hW1eq]; exact hw2'.1
    have hw2idx : W2.activeGroupIdx = g := by rw [hW2, hW1eq]; exact hw2'.2.1
    have hw2len : W2.activeInGroup.length = w.activeInGroup.length := by
      rw [hW2, hW1eq]; exact hw2'.2.2.1
    have hsvW : W2.active_view = some u := hsv
    have hu : u ∈ w.views_in_group g := by
      refine hw2'.2.2.2 u ?_
      rw [← hW1eq]
      exact hsvW
    have hfg3 : W2.find_group view = some g := by
      unfold Window.find_group
      rw [hw2g]
      exact hfgw
    have hlen2 : g < W2.activeInGroup.length := by
      rw [hw2len, hac.1]; exact hg
    have h3av : (W2.focus_view view).active_view = some view :=
      active_view_focus_view_of_find hfg3 hlen2
    have h3g : (W2.focus_view view).groups = w.groups := by
      rw [focus_view_eq_of_find hfg3]
      exact hw2g
    have h3idx : (W2.focus_view view).activeGroupIdx = g := by
      rw [focus_view_eq_of_find hfg3]
    have h3len : (W2.focus_view view).activeInGroup.length
        = w.activeInGroup.length := by
      rw [focus_view_eq_of_find hfg3]
      simpa using hw2len
    have h3vg : (W2.focus_view view).views_in_group g = w.views_in_group g := by
      unfold Window.views_in_group
      rw [h3g]
    set W4 := (W2.focus_view view).close_file with hW4
    have h4eq := close_file_eq h3av
    have h4groups : W4.groups = w.groups.set g ((w.views_in_group g).erase view) := by
      rw [hW4, h4eq, h3idx, h3vg, h3g]
    have h4len : W4.activeInGroup.length = w.activeInGroup.length := by
      rw [hW4, h4eq]
      simpa using h3len
    have hufind : W4.find_group u = some g := by
      apply find_group_eq
      · rw [h4groups, List.length_set]
        exact hg
      · unfold Window.views_in_group
        rw [h4groups,
          getD_set_self w.groups g ((w.views_in_group g).erase view) [] hg]
        exact (List.mem_erase_of_ne hne).mpr hu
      · intro g2 hg2
        unfold Window.views_in_group
        rw [h4groups,
          getD_set_ne w.groups ((w.views_in_group g).erase view) []
            (show g ≠ g2 by omega)]
        exact hd g hg g2 (hg2.trans hg) (by omega) u hu
    have hulen : g < W4.activeInGroup.length := by
      rw [h4len, hac.1]; exact hg
    have h5eq := focus_view_eq_of_find hufind
    have hs5 : kill_stage5 W4 W2.active_view view
        = (W4.focus_view u, [HostOp.focusView u]) := by
      rw [hsvW]
      simp only [kill_stage5]
      rw [if_pos hne]
    have hfinal1 : (kill_buffer_action avl rk w view).1
        = (kill_stage5 W4 W2.active_view view).1.focus_group w.active_group := by
      rw [hW4, hW2, hW1]
      rfl
    have hfinal2 : (kill_buffer_action avl rk w view).2
        = (kill_stage1 w view).2 ++ (kill_stage2 avl rk W1 view).2
          ++ [HostOp.focusView view, HostOp.closeFile]
          ++ (kill_stage5 W4 W2.active_view view).2
          ++ [HostOp.focusGroup w.active_group] := by
      rw [hW4, hW2, hW1]
      rfl
    constructor
    · rw [hfinal1, hs5]
      show (W4.focus_view u).activeInGroup.getD g none = some u
      rw [h5eq]
      exact getD_set_self W4.activeInGroup g (some u) none hulen
    · refine ⟨(kill_stage1 w view).2 ++ (kill_stage2 avl rk W1 view).2
        ++ [HostOp.focusView view, HostOp.closeFile], ?_⟩
      rw [hfinal2, hs5]
      simp [Window.active_group, List.append_assoc]

/-- Witness for C8 at a concrete input: a one-group window `[A, B]` with `A`
active; killing `B` (with `recent_on_kill` off) restores group 0, ends with
`A` active in the group, and the trace ends with `focus_view A` followed by
the group restore. -/
theorem kill_buffer_action_spec_witness :
    (kill_buffer_action [] false
        ⟨[[⟨0, none, none, false, false⟩, ⟨1, none, none, false, false⟩]],
          [some ⟨0, none, none, false, false⟩], 0, []⟩
        ⟨1, none, none, false, false⟩).1.activeGroupIdx = 0
    ∧ (kill_buffer_action [] false
        ⟨[[⟨0, none, none, false, false⟩, ⟨1, none, none, false, false⟩]],
          [some ⟨0, none, none, false, false⟩], 0, []⟩
        ⟨1, none, none, false, false⟩).1.activeInGroup.getD 0 none
        = some ⟨0, none, none, false, false⟩
    ∧ ∃ pre, (kill_buffer_action [] false
        ⟨[[⟨0, none, none, false, false⟩, ⟨1, none, none, false, false⟩]],
          [some ⟨0, none, none, false, false⟩], 0, []⟩
        ⟨1, none, none, false, false⟩).2
        = pre ++ [HostOp.focusView ⟨0, none, none, false, false⟩,
                  HostOp.focusGroup 0] :=
  ⟨(kill_buffer_action_spec [] false
      ⟨[[⟨0, none, none, false, false⟩, ⟨1, none, none, false, false⟩]],
        [some ⟨0, none, none, false, false⟩], 0, []⟩
      ⟨1, none, none, false, false⟩ 0
      (by unfold Window.ActiveConsistent; decide)
      (by
        intro i hi j hj hij x hx
        have hi1 : i < 1 := hi
        have hj1 : j < 1 := hj
        omega) (by decide) (by decide)).1,
   ((kill_buffer_action_spec [] false
      ⟨[[⟨0, none, none, false, false⟩, ⟨1, none, none, false, false⟩]],
        [some ⟨0, none, none, false, false⟩], 0, []⟩
      ⟨1, none, none, false, false⟩ 0
      (by unfold Window.ActiveConsistent; decide)
      (by
        intro i hi j hj hij x hx
        have hi1 : i < 1 := hi
        have hj1 : j < 1 := hj
        omega) (by decide) (by decide)).2
      ⟨0, none, none, false, false⟩ (by decide) (by decide)).1,
   ((kill_buffer_action_spec [] false
      ⟨[[⟨0, none, none, false, false⟩, ⟨1, none, none, false, false⟩]],
        [some ⟨0, none, none, false, false⟩], 0, []⟩
      ⟨1, none, none, false, false⟩ 0
      (by unfold Window.ActiveConsistent; decide)
      (by
        intro i hi j hj hij x hx
        have hi1 : i < 1 := hi
        have hj1 : j < 1 := hj
        omega) (by decide) (by decide)).2
      ⟨0, none, none, false, false⟩ (by decide) (by decide)).2⟩
